import Mathlib

/-!
Verification development for a NEXRAD Level-II file decoder
(`nexrad_l2.py`).  The Python source is shallowly embedded: byte buffers
become `List Nat` (one entry per byte, values 0..255), Python slices become
drop/take, big-endian struct fields are read at their documented offsets,
fallible operations (struct.unpack on a short slice, exceptions raised
while decoding) become `Option`/`Except`, and IEEE floats that only ever
hold small integer constants or exact dyadic values are modelled as `Rat`
(each such place is marked in a comment).
-/

namespace NexradL2

/-- Python slice `buf[a:b]` for natural bounds: clips at the end of the
list, empty when `b ≤ a`. -/
def pySlice (buf : List Nat) (a b : Nat) : List Nat :=
  (buf.drop a).take (b - a)

/-- Byte at index `i` (0 past the end; every use is guarded so the default
is never observable). -/
def byteAt (buf : List Nat) (i : Nat) : Nat :=
  buf.getD i 0

/-- Big-endian 16-bit unsigned integer at offset `i` (struct code `H`). -/
def be2 (buf : List Nat) (i : Nat) : Nat :=
  256 * byteAt buf i + byteAt buf (i + 1)

/-- Big-endian 32-bit unsigned integer at offset `i` (struct code `I`). -/
def be4 (buf : List Nat) (i : Nat) : Nat :=
  16777216 * byteAt buf i + 65536 * byteAt buf (i + 1) +
    256 * byteAt buf (i + 2) + byteAt buf (i + 3)

/-- Signed 16-bit value from its unsigned big-endian reading (struct code
`h`). -/
def sint2 (v : Nat) : Int :=
  if v < 32768 then (v : Int) else (v : Int) - 65536

/-- Signed 8-bit value from its unsigned reading (struct code `b`). -/
def sint1 (v : Nat) : Int :=
  if v < 128 then (v : Int) else (v : Int) - 256

theorem pySlice_length (buf : List Nat) (a b : Nat) :
    (pySlice buf a b).length = min (b - a) (buf.length - a) := by
  simp [pySlice]

/-! ## Bzip2 stream discovery (`_get_bzip2_start_indices` and the
minimum-distance filter of `decode_file`)

The source scans the compressed buffer with `re.finditer(b'BZh', cbuf)`
(the pattern cannot overlap itself, so the match positions are exactly all
occurrence positions) and keeps a position `i` when
`cbuf[i+5:i+10] in b'AY&SY'` — Python bytes `in` is *substring
containment*, so a slice truncated by the end of the buffer can also pass.
`decode_file` then discards every start whose distance to the next start
(the buffer length for the last start) is 1000 or less. -/

/-- The three bytes `b"BZh"`. -/
def bzhMagic : List Nat := [66, 90, 104]

/-- The five bytes `b"AY&SY"` (the compressed-block magic after the
block-size digit). -/
def aysyMagic : List Nat := [65, 89, 38, 83, 89]

/-- Python `sub in main` for bytes: contiguous substring containment. -/
def pyIn (sub main : List Nat) : Bool :=
  decide (sub <:+: main)

/-- The source's per-position test on the suffix of the buffer starting at
the position: `b"BZh"` occurs there (`re.finditer(b'BZh', cbuf)` — the
pattern cannot overlap itself, so the match positions are exactly all
occurrence positions) and the possibly truncated slice five bytes later,
`cbuf[i+5:i+10]`, is contained in `b"AY&SY"`.  For a suffix `s = cbuf.drop
i` the two slices are `s.take 3` and `(s.drop 5).take 5`. -/
def streamMatch (s : List Nat) : Bool :=
  (s.take 3 == bzhMagic) && pyIn ((s.drop 5).take 5) aysyMagic

/-- All positions `i + j` such that the suffix of `l` at `j` passes
`streamMatch`, in increasing order. -/
def findStartsFrom : List Nat → Nat → List Nat
  | [], _ => []
  | b :: t, i => (if streamMatch (b :: t) then [i] else []) ++ findStartsFrom t (i + 1)

/-- `_get_bzip2_start_indices`: all positions where `b"BZh"` occurs and the
(possibly truncated) slice five bytes later is contained in `b"AY&SY"`. -/
def bzip2StartIndices (cbuf : List Nat) : List Nat :=
  findStartsFrom cbuf 0

/-- The filter of `decode_file`: `diffs = np.diff(start_pos + [len(cbuf)])`
and a start is kept when its diff is strictly greater than 1000.  The
diffs are computed once, against the *unfiltered* successor. -/
def filterSmallGaps : List Nat → Nat → List Nat
  | [], _ => []
  | [s], len => if (1000 : Int) < (len : Int) - (s : Int) then [s] else []
  | s :: s' :: rest, len =>
    (if (1000 : Int) < (s' : Int) - (s : Int) then [s] else []) ++
      filterSmallGaps (s' :: rest) len

/-- `self._bzip2_start_pos` as `decode_file` leaves it after removing the
undersized streams. -/
def bzip2StartPos (cbuf : List Nat) : List Nat :=
  filterSmallGaps (bzip2StartIndices cbuf) cbuf.length

/-- Worded from the claim: a valid start has bytes `P..P+3 = "BZh"` and
bytes `P+5..P+10 = "AY&SY"` (full equality, not substring containment). -/
def eqMagicAt (cbuf : List Nat) (p : Nat) : Bool :=
  (pySlice cbuf p (p + 3) == bzhMagic) && (pySlice cbuf (p + 5) (p + 10) == aysyMagic)

/-- Worded from the claim: discard a start `s_i` when `s_{i+1} - s_i`
(buffer length bound for the last) is *strictly less* than 1000. -/
def claimFilterGaps : List Nat → Nat → List Nat
  | [], _ => []
  | [s], len => if (len : Int) - (s : Int) < 1000 then [] else [s]
  | s :: s' :: rest, len =>
    (if (s' : Int) - (s : Int) < 1000 then [] else [s]) ++
      claimFilterGaps (s' :: rest) len

/-- Worded from the claim, as a per-suffix test: both magics hold by
*equality* at the position. -/
def eqStreamMatch (s : List Nat) : Bool :=
  (s.take 3 == bzhMagic) && ((s.drop 5).take 5 == aysyMagic)

/-- The positions the claim admits, in increasing order. -/
def claimStartsFrom : List Nat → Nat → List Nat
  | [], _ => []
  | b :: t, i => (if eqStreamMatch (b :: t) then [i] else []) ++ claimStartsFrom t (i + 1)

/-- The start list the claim describes. -/
def claimStartPos (cbuf : List Nat) : List Nat :=
  claimFilterGaps (claimStartsFrom cbuf 0) cbuf.length

/-- One full 10-byte stream head: `BZh` + block-size digit `9` + one more
byte of the compressed magic + `AY&SY`. -/
def streamHead : List Nat := [66, 90, 104, 57, 49, 65, 89, 38, 83, 89]

/-- A compressed buffer with stream heads at positions 0 and 1000 and total
length 1010: the two adjacent starts are exactly 1000 apart. -/
def cexBuf : List Nat := streamHead ++ List.replicate 990 0 ++ streamHead

theorem mem_findStartsFrom {l : List Nat} {i p : Nat} :
    p ∈ findStartsFrom l i ↔ ∃ j, p = i + j ∧ streamMatch (l.drop j) = true := by
  induction l generalizing i with
  | nil =>
    constructor
    · intro h
      simp [findStartsFrom] at h
    · rintro ⟨j, -, hm⟩
      rw [List.drop_nil] at hm
      exact absurd hm (by decide)
  | cons b t ih =>
    rw [findStartsFrom]
    constructor
    · intro h
      rcases List.mem_append.mp h with h1 | h2
      · by_cases hs : streamMatch (b :: t) = true
        · refine ⟨0, ?_, by simpa using hs⟩
          rw [if_pos hs] at h1
          simpa using h1
        · rw [if_neg hs] at h1
          simp at h1
      · obtain ⟨j, hpj, hm⟩ := ih.mp h2
        exact ⟨j + 1, by omega, by simpa using hm⟩
    · rintro ⟨j, rfl, hm⟩
      rcases j with - | j'
      · rw [List.drop_zero] at hm
        refine List.mem_append.mpr (Or.inl ?_)
        rw [if_pos hm]
        simp
      · refine List.mem_append.mpr (Or.inr (ih.mpr ⟨j', by omega, ?_⟩))
        simpa using hm

theorem mem_filterSmallGaps :
    ∀ {S : List Nat} {len p : Nat}, p ∈ filterSmallGaps S len →
      p ∈ S ∧ ∃ b : Nat, (b ∈ S ∨ b = len) ∧ (1000 : Int) < (b : Int) - (p : Int) := by
  intro S
  induction S with
  | nil => intro len p h; simp [filterSmallGaps] at h
  | cons s rest ih =>
    intro len p h
    cases rest with
    | nil =>
      simp only [filterSmallGaps] at h
      by_cases hg : (1000 : Int) < (len : Int) - (s : Int)
      · rw [if_pos hg] at h
        simp at h
        subst h
        exact ⟨by simp, len, Or.inr rfl, hg⟩
      · rw [if_neg hg] at h
        simp at h
    | cons s' rest' =>
      simp only [filterSmallGaps] at h
      rcases List.mem_append.mp h with h1 | h2
      · by_cases hg : (1000 : Int) < (s' : Int) - (s : Int)
        · rw [if_pos hg] at h1
          simp at h1
          subst h1
          exact ⟨by simp, s', Or.inl (by simp), hg⟩
        · rw [if_neg hg] at h1
          simp at h1
      · obtain ⟨hmem, b, hb, hgt⟩ := ih h2
        refine ⟨List.mem_cons_of_mem _ hmem, b, ?_, hgt⟩
        rcases hb with hb | hb
        · exact Or.inl (List.mem_cons_of_mem _ hb)
        · exact Or.inr hb

theorem streamMatch_pos_bound {cbuf : List Nat} {p : Nat}
    (h : streamMatch (cbuf.drop p) = true) : p + 3 ≤ cbuf.length := by
  simp only [streamMatch, Bool.and_eq_true, beq_iff_eq] at h
  have hl := congrArg List.length h.1
  simp only [List.length_take, List.length_drop, bzhMagic, List.length_cons,
    List.length_nil] at hl
  omega

theorem infix_eq_of_length {l m : List Nat} (h : l <:+: m) (hl : l.length = m.length) :
    l = m := by
  obtain ⟨s, t, rfl⟩ := h
  simp only [List.length_append] at hl
  have hs : s = [] := List.eq_nil_of_length_eq_zero (by omega)
  have ht : t = [] := List.eq_nil_of_length_eq_zero (by omega)
  subst hs; subst ht; simp

/-- C2 (amended): every start retained by the decoder satisfies the *full*
magic equality (`BZh` at `P`, `AY&SY` at `P+5..P+10`): the distance filter
(necessarily leaving more than 1000 bytes after a retained start) kills
every truncated end-of-buffer match that the substring-containment test of
`_get_bzip2_start_indices` admits.  Conversely every full-magic position is
detected as a candidate, and the final list is exactly the candidate list
filtered by the gap rule — discarding gaps of at most 1000 bytes (in
particular a gap of exactly 1000, which the claim would keep). -/
theorem bzip2_start_pos_amended (cbuf : List Nat) (p : Nat) :
    (p ∈ bzip2StartPos cbuf → eqMagicAt cbuf p = true)
    ∧ (eqMagicAt cbuf p = true → p ∈ bzip2StartIndices cbuf)
    ∧ bzip2StartPos cbuf = filterSmallGaps (bzip2StartIndices cbuf) cbuf.length := by
  have hslice1 : pySlice cbuf p (p + 3) = (cbuf.drop p).take 3 := by
    rw [pySlice, Nat.add_sub_cancel_left]
  have hslice2 : pySlice cbuf (p + 5) (p + 10) = ((cbuf.drop p).drop 5).take 5 := by
    rw [pySlice, List.drop_drop]
    congr 1
    omega
  refine ⟨?_, ?_, rfl⟩
  · intro h
    obtain ⟨hmem, b, hb, hgt⟩ := mem_filterSmallGaps h
    obtain ⟨j, hj, hsm0⟩ := mem_findStartsFrom.mp hmem
    have hsm : streamMatch (cbuf.drop p) = true := by
      have hjp : p = j := by omega
      rw [hjp]
      exact hsm0
    have hp3 : p + 3 ≤ cbuf.length := streamMatch_pos_bound hsm
    have hble : b ≤ cbuf.length := by
      rcases hb with hb | hb
      · obtain ⟨j', hj', hsm'⟩ := mem_findStartsFrom.mp hb
        have h3 := streamMatch_pos_bound hsm'
        omega
      · omega
    have hp10 : p + 10 ≤ cbuf.length := by omega
    simp only [streamMatch, Bool.and_eq_true, beq_iff_eq] at hsm
    have hinf : ((cbuf.drop p).drop 5).take 5 <:+: aysyMagic :=
      of_decide_eq_true hsm.2
    have hlen : (((cbuf.drop p).drop 5).take 5).length = aysyMagic.length := by
      simp only [List.length_take, List.length_drop, aysyMagic, List.length_cons,
        List.length_nil]
      omega
    have heq2 : ((cbuf.drop p).drop 5).take 5 = aysyMagic := infix_eq_of_length hinf hlen
    simp only [eqMagicAt, Bool.and_eq_true, beq_iff_eq, hslice1, hslice2]
    exact ⟨hsm.1, heq2⟩
  · intro h
    simp only [eqMagicAt, Bool.and_eq_true, beq_iff_eq, hslice1, hslice2] at h
    refine mem_findStartsFrom.mpr ⟨p, by omega, ?_⟩
    simp only [streamMatch, Bool.and_eq_true, beq_iff_eq]
    exact ⟨h.1, by rw [h.2]; exact decide_eq_true (List.infix_refl _)⟩

set_option maxRecDepth 100000 in
/-- C2 counterexample: on a buffer whose two valid stream heads are exactly
1000 bytes apart, the claim keeps the first start (its gap is not *less*
than 1000) while the decoder discards both (it requires gaps strictly
*greater* than 1000), so the claimed start list differs from the decoder's. -/
theorem bzip2_start_pos_cex :
    claimStartPos cexBuf = [0] ∧ bzip2StartPos cexBuf = [] ∧
      claimStartPos cexBuf ≠ bzip2StartPos cexBuf := by decide

/-! ## Structure unpacking (`_unpack_structure` over the static schema)

`struct.unpack` demands a slice of exactly the structure's size, so each
unpack returns `none` when the buffer is too short.  Fields are read
big-endian at the offsets of the schema tables; `REAL4` fields that no
claim interprets numerically are kept as their raw 32-bit big-endian
reading (suffix `_bits`). -/

/-- `MSG_HEADER` (16 bytes). -/
structure MsgHeader where
  size : Nat
  channels : Nat
  type : Nat
  seq_id : Nat
  date : Nat
  ms : Nat
  segments : Nat
  seg_num : Nat
deriving Repr, DecidableEq

def unpackMsgHeader (buf : List Nat) (pos : Nat) : Option MsgHeader :=
  if pos + 16 ≤ buf.length then
    some { size := be2 buf pos, channels := byteAt buf (pos + 2),
           type := byteAt buf (pos + 3), seq_id := be2 buf (pos + 4),
           date := be2 buf (pos + 6), ms := be4 buf (pos + 8),
           segments := be2 buf (pos + 12), seg_num := be2 buf (pos + 14) }
  else none

/-- `MSG_1` (100 bytes), the legacy radial message body.  The four spare
byte-string fields are not materialised (no caller reads them). -/
structure Msg1Header where
  collect_ms : Nat
  collect_date : Nat
  unambig_range : Int
  azimuth_angle : Nat
  azimuth_number : Nat
  radial_status : Nat
  elevation_angle : Nat
  elevation_number : Nat
  sur_range_first : Nat
  doppler_range_first : Nat
  sur_range_step : Nat
  doppler_range_step : Nat
  sur_nbins : Nat
  doppler_nbins : Nat
  cut_sector_num : Nat
  calib_const_bits : Nat
  sur_pointer : Nat
  vel_pointer : Nat
  width_pointer : Nat
  doppler_resolution : Nat
  vcp : Nat
  nyquist_vel : Int
  atmos_attenuation : Int
  threshold : Int
  spot_blank_status : Nat
deriving Repr, DecidableEq

def unpackMsg1Header (buf : List Nat) (pos : Nat) : Option Msg1Header :=
  if pos + 100 ≤ buf.length then
    some { collect_ms := be4 buf pos, collect_date := be2 buf (pos + 4),
           unambig_range := sint2 (be2 buf (pos + 6)),
           azimuth_angle := be2 buf (pos + 8), azimuth_number := be2 buf (pos + 10),
           radial_status := be2 buf (pos + 12), elevation_angle := be2 buf (pos + 14),
           elevation_number := be2 buf (pos + 16), sur_range_first := be2 buf (pos + 18),
           doppler_range_first := be2 buf (pos + 20), sur_range_step := be2 buf (pos + 22),
           doppler_range_step := be2 buf (pos + 24), sur_nbins := be2 buf (pos + 26),
           doppler_nbins := be2 buf (pos + 28), cut_sector_num := be2 buf (pos + 30),
           calib_const_bits := be4 buf (pos + 32), sur_pointer := be2 buf (pos + 36),
           vel_pointer := be2 buf (pos + 38), width_pointer := be2 buf (pos + 40),
           doppler_resolution := be2 buf (pos + 42), vcp := be2 buf (pos + 44),
           nyquist_vel := sint2 (be2 buf (pos + 60)),
           atmos_attenuation := sint2 (be2 buf (pos + 62)),
           threshold := sint2 (be2 buf (pos + 64)),
           spot_blank_status := be2 buf (pos + 66) }
  else none

/-- `MSG_31` (72 bytes), the modern radial message header; the ten block
pointers are kept as one list, in order. -/
structure Msg31Header where
  id_bytes : List Nat
  collect_ms : Nat
  collect_date : Nat
  azimuth_number : Nat
  azimuth_angle_bits : Nat
  compress_flag : Nat
  spare_0 : Nat
  radial_length : Nat
  azimuth_resolution : Nat
  radial_spacing : Nat
  elevation_number : Nat
  cut_sector : Nat
  elevation_angle_bits : Nat
  radial_blanking : Nat
  azimuth_mode : Int
  block_count : Nat
  blockPointers : List Nat
deriving Repr, DecidableEq

def unpackMsg31Header (buf : List Nat) (pos : Nat) : Option Msg31Header :=
  if pos + 72 ≤ buf.length then
    some { id_bytes := pySlice buf pos (pos + 4), collect_ms := be4 buf (pos + 4),
           collect_date := be2 buf (pos + 8), azimuth_number := be2 buf (pos + 10),
           azimuth_angle_bits := be4 buf (pos + 12), compress_flag := byteAt buf (pos + 16),
           spare_0 := byteAt buf (pos + 17), radial_length := be2 buf (pos + 18),
           azimuth_resolution := byteAt buf (pos + 20), radial_spacing := byteAt buf (pos + 21),
           elevation_number := byteAt buf (pos + 22), cut_sector := byteAt buf (pos + 23),
           elevation_angle_bits := be4 buf (pos + 24), radial_blanking := byteAt buf (pos + 28),
           azimuth_mode := sint1 (byteAt buf (pos + 29)), block_count := be2 buf (pos + 30),
           blockPointers := (List.range 10).map fun k => be4 buf (pos + 32 + 4 * k) }
  else none

/-- `GENERIC_DATA_BLOCK` (28 bytes) plus its decoded gate `data`. -/
structure GenBlock where
  block_type : Nat
  data_name : List Nat
  reserved : Nat
  ngates : Nat
  first_gate : Int
  gate_spacing : Int
  thresh : Int
  snr_thres : Int
  flags : Nat
  word_size : Nat
  scale_bits : Nat
  offset_bits : Nat
  data : List Nat
deriving Repr, DecidableEq

def unpackGenBlock (buf : List Nat) (pos : Nat) : Option GenBlock :=
  if pos + 28 ≤ buf.length then
    some { block_type := byteAt buf pos, data_name := pySlice buf (pos + 1) (pos + 4),
           reserved := be4 buf (pos + 4), ngates := be2 buf (pos + 8),
           first_gate := sint2 (be2 buf (pos + 10)), gate_spacing := sint2 (be2 buf (pos + 12)),
           thresh := sint2 (be2 buf (pos + 14)), snr_thres := sint2 (be2 buf (pos + 16)),
           flags := byteAt buf (pos + 18), word_size := byteAt buf (pos + 19),
           scale_bits := be4 buf (pos + 20), offset_bits := be4 buf (pos + 24),
           data := [] }
  else none

/-! ## Message-31 block dispatcher (`_get_msg31_data_block`) -/

/-- Python exceptions the block dispatcher can raise: `struct.error` on a
short slice, `UnicodeDecodeError` from `.decode("ascii")`, `ValueError`
from `np.frombuffer` on an odd-length 16-bit buffer, and the `TypeError`
raised by `warnings.warn` when it is handed the integer word size as the
warning category. -/
inductive PyErr where
  | structErr
  | decodeErr
  | valueErr
  | typeErr
deriving Repr, DecidableEq

/-- A decoded message-31 sub-block.  `VOL`/`ELV`/`RAD` blocks carry their
raw byte slice (no claim reads their fields); generic moment blocks carry
the decoded `GenBlock`; an unrecognised tag (or a moment excluded by the
caller's filter, stored under the name `"None"`) carries nothing. -/
inductive Msg31Block where
  | vol (raw : List Nat)
  | elv (raw : List Nat)
  | rad (raw : List Nat)
  | gen (g : GenBlock)
  | emptyBlock
deriving Repr, DecidableEq

/-- Bytes Python's `str.strip` removes (the ASCII characters with
`isspace() == True`). -/
def wsByte (b : Nat) : Bool :=
  b == 9 || b == 10 || b == 11 || b == 12 || b == 13 ||
    b == 28 || b == 29 || b == 30 || b == 31 || b == 32

/-- `s.strip()` on an ASCII byte string. -/
def stripWS (l : List Nat) : List Nat :=
  ((l.dropWhile wsByte).reverse.dropWhile wsByte).reverse

/-- `bytes.decode("ascii")`: fails when a byte is 128 or more. -/
def decodeAscii (l : List Nat) : Option (List Nat) :=
  if l.all (fun b => b < 128) then some l else none

def volTag : List Nat := [86, 79, 76]
def elvTag : List Nat := [69, 76, 86]
def radTag : List Nat := [82, 65, 68]
def refTag : List Nat := [82, 69, 70]
def velTag : List Nat := [86, 69, 76]
def swTag : List Nat := [83, 87]
def zdrTag : List Nat := [90, 68, 82]
def phiTag : List Nat := [80, 72, 73]
def rhoTag : List Nat := [82, 72, 79]
def cfpTag : List Nat := [67, 70, 80]
def noneTag : List Nat := [78, 111, 110, 101]

def momentTags : List (List Nat) :=
  [refTag, velTag, swTag, zdrTag, phiTag, rhoTag, cfpTag]

/-- The caller's moment filter: `none` models Python `None`, and an empty
list is falsy exactly like Python's `not moments`.  (A caller passing one
plain string instead of a list is modelled as a one-element list; for the
three-letter tags Python's substring test on a single string agrees with
list membership.) -/
def momentOk (moments : Option (List (List Nat))) (tag : List Nat) : Bool :=
  match moments with
  | none => true
  | some l => l.isEmpty || l.contains tag

/-- Big-endian `>u2` pairs, as `np.frombuffer(-, ">u2")` reads them. -/
def chunkBE2 : List Nat → List Nat
  | a :: b :: t => (256 * a + b) :: chunkBE2 t
  | _ => []

/-- `_get_msg31_data_block`: read the three-byte tag at `ptr+1..ptr+4`,
dispatch on it, and for a generic moment block also read `ngates` gate
values of `word_size` bits.  A `word_size` other than 8 or 16 reaches
`warnings.warn('Unsupported bit size: ...', dic["word_size"])`, which
raises `TypeError` because the second positional argument (the warning
category) is an integer, not a `Warning` subclass. -/
def getMsg31DataBlock (buf : List Nat) (ptr : Nat)
    (moments : Option (List (List Nat))) : Except PyErr (List Nat × Msg31Block) :=
  match decodeAscii (pySlice buf (ptr + 1) (ptr + 4)) with
  | none => .error .decodeErr
  | some raw =>
    let nm := stripWS raw
    if nm = volTag then
      if ptr + 44 ≤ buf.length then .ok (nm, .vol (pySlice buf ptr (ptr + 44)))
      else .error .structErr
    else if nm = elvTag then
      if ptr + 12 ≤ buf.length then .ok (nm, .elv (pySlice buf ptr (ptr + 12)))
      else .error .structErr
    else if nm = radTag then
      if ptr + 20 ≤ buf.length then .ok (nm, .rad (pySlice buf ptr (ptr + 20)))
      else .error .structErr
    else if momentTags.contains nm then
      if momentOk moments nm = false then .ok (noneTag, .emptyBlock)
      else
        match unpackGenBlock buf ptr with
        | none => .error .structErr
        | some g =>
          if g.word_size = 16 then
            let s := pySlice buf (ptr + 28) (ptr + 28 + g.ngates * 2)
            if s.length % 2 = 0 then .ok (nm, .gen { g with data := chunkBE2 s })
            else .error .valueErr
          else if g.word_size = 8 then
            .ok (nm, .gen { g with data := pySlice buf (ptr + 28) (ptr + 28 + g.ngates) })
          else .error .typeErr
    else .ok (nm, .emptyBlock)

/-! ## Record dispatch (`_get_record_from_buf` and the per-type message
decoders) -/

/-- `RECORD_SIZE` (2432 bytes). -/
def RECORD_SIZE : Nat := 2432

/-- A decoded MSG_1 moment block (`dic["REF"|"VEL"|"SW"]`).  `scale` and
`offset` are the float constants 2.0/1.0, 66.0/129.0 - exactly
representable, modelled as rationals. -/
structure Msg1Moment where
  ngates : Nat
  gate_spacing : Nat
  first_gate : Int
  data : List Nat
  scale : Rat
  offset : Rat
deriving Repr, DecidableEq

/-- The body `_get_msg1_from_buf` builds on the record. -/
structure Msg1Body where
  msg_header : Msg1Header
  refB : Option Msg1Moment
  velB : Option Msg1Moment
  swB : Option Msg1Moment
deriving Repr, DecidableEq

/-- The body `_get_msg1_from_buf` decodes (all of the function except its
`return pos + RECORD_SIZE`).  Note the source gates the `SW` block on
`'REF' in moments`, not `'SW'`. -/
def getMsg1Body (buf : List Nat) (pos : Nat)
    (moments : Option (List (List Nat))) : Option Msg1Body :=
  match unpackMsg1Header buf (pos + 16) with
  | none => none
  | some m1 =>
    let dopplerFirst : Int :=
      if 2 ^ 15 < m1.doppler_range_first then (m1.doppler_range_first : Int) - 2 ^ 16
      else (m1.doppler_range_first : Int)
    let refB : Option Msg1Moment :=
      if m1.sur_pointer ≠ 0 ∧ momentOk moments refTag = true then
        some { ngates := m1.sur_nbins, gate_spacing := m1.sur_range_step,
               first_gate := (m1.sur_range_first : Int),
               data := pySlice buf (pos + 16 + m1.sur_pointer)
                         (pos + 16 + m1.sur_pointer + m1.sur_nbins),
               scale := 2, offset := 66 }
      else none
    let velB : Option Msg1Moment :=
      if m1.vel_pointer ≠ 0 ∧ momentOk moments velTag = true then
        some { ngates := m1.doppler_nbins, gate_spacing := m1.doppler_range_step,
               first_gate := dopplerFirst,
               data := pySlice buf (pos + 16 + m1.vel_pointer)
                         (pos + 16 + m1.vel_pointer + m1.doppler_nbins),
               scale := if m1.doppler_resolution = 4 then 1 else 2, offset := 129 }
      else none
    let swB : Option Msg1Moment :=
      if m1.width_pointer ≠ 0 ∧ momentOk moments refTag = true then
        some { ngates := m1.doppler_nbins, gate_spacing := m1.doppler_range_step,
               first_gate := dopplerFirst,
               data := pySlice buf (pos + 16 + m1.width_pointer)
                         (pos + 16 + m1.width_pointer + m1.doppler_nbins),
               scale := 2, offset := 129 }
      else none
    some { msg_header := m1, refB := refB, velB := velB, swB := swB }

/-- `_get_msg1_from_buf`: the decoded body together with its cursor
advance, `pos + RECORD_SIZE`. -/
def getMsg1FromBuf (buf : List Nat) (pos : Nat)
    (moments : Option (List (List Nat))) : Option (Int × Msg1Body) :=
  (getMsg1Body buf pos moments).map fun b => ((pos : Int) + (RECORD_SIZE : Int), b)

/-- The loop of `_get_msg31_from_buf` over the ten block pointers: any
exception from a block aborts the record. -/
def collectBlocks (mbuf : List Nat) (moments : Option (List (List Nat))) :
    List Nat → Except PyErr (List (List Nat × Msg31Block))
  | [] => .ok []
  | ptr :: rest =>
    if 0 < ptr then
      match getMsg31DataBlock mbuf ptr moments with
      | .error e => .error e
      | .ok nb =>
        match collectBlocks mbuf moments rest with
        | .error e => .error e
        | .ok l => .ok (nb :: l)
    else collectBlocks mbuf moments rest

/-- The cursor advance of `_get_msg31_from_buf`:
`pos + sizeof(MSG_HEADER) + (header.size * 2 - 4)`. -/
def msg31NewPos (pos hdrSize : Nat) : Int :=
  (pos : Int) + 16 + ((hdrSize : Int) * 2 - 4)

/-- The header and blocks `_get_msg31_from_buf` decodes from the
message-local buffer `buf[pos + 16 : new_pos]`. -/
def getMsg31Body (buf : List Nat) (pos : Nat) (hdrSize : Nat)
    (moments : Option (List (List Nat))) :
    Option (Msg31Header × List (List Nat × Msg31Block)) :=
  match unpackMsg31Header (pySlice buf (pos + 16) (msg31NewPos pos hdrSize).toNat) 0 with
  | none => none
  | some mh =>
    match collectBlocks (pySlice buf (pos + 16) (msg31NewPos pos hdrSize).toNat)
        moments mh.blockPointers with
    | .error _ => none
    | .ok blocks => some (mh, blocks)

/-- `_get_msg31_from_buf`: decoded header and blocks together with the
cursor advance. -/
def getMsg31FromBuf (buf : List Nat) (pos : Nat) (hdrSize : Nat)
    (moments : Option (List (List Nat))) :
    Option (Int × Msg31Header × List (List Nat × Msg31Block)) :=
  (getMsg31Body buf pos hdrSize moments).map fun mb => (msg31NewPos pos hdrSize, mb)

/-- `_get_msg29_from_buf`: the effective size, with the oversized-record
escape `size == 65535`. -/
def msg29EffSize (hdr : MsgHeader) : Nat :=
  if hdr.size = 65535 then Nat.lor (hdr.segments <<< 16) hdr.seg_num else hdr.size

/-- Whether `_get_msg5_from_buf` runs without a `struct.error`: the MSG_5
body (22 bytes at `pos + 16`) and all `num_cuts` MSG_5_ELEV entries
(46 bytes each) must fit. -/
def msg5Ok (buf : List Nat) (pos : Nat) : Bool :=
  pos + 38 ≤ buf.length && pos + 38 + 46 * be2 buf (pos + 22) ≤ buf.length

/-- The decoded payload of a record, by message type. -/
inductive RecBody where
  | b1 (body : Msg1Body)
  | b31 (mh : Msg31Header) (blocks : List (List Nat × Msg31Block))
  | b5 (ok : Bool)
  | bOther
deriving Repr, DecidableEq

structure PRecord where
  header : MsgHeader
  body : RecBody
deriving Repr, DecidableEq

/-- `_get_record_from_buf`: unpack the message header, dispatch on its
type, and return the new cursor with the record.  `none` models an
uncaught exception.  Note: for type 1 the source calls
`_get_msg1_from_buf(buf, pos, dic)` *without* forwarding `moments`, so the
legacy decoder always runs with `moments = None`. -/
def getRecordFromBuf (buf : List Nat) (pos : Nat)
    (moments : Option (List (List Nat))) : Option (Int × PRecord) :=
  match unpackMsgHeader buf pos with
  | none => none
  | some hdr =>
    if hdr.type = 31 then
      (getMsg31FromBuf buf pos hdr.size moments).map fun r =>
        (r.1, { header := hdr, body := .b31 r.2.1 r.2.2 })
    else if hdr.type = 5 then
      some ((pos : Int) + (RECORD_SIZE : Int), { header := hdr, body := .b5 (msg5Ok buf pos) })
    else if hdr.type = 29 then
      some ((pos : Int) + 16 + (msg29EffSize hdr : Int), { header := hdr, body := .bOther })
    else if hdr.type = 1 then
      (getMsg1FromBuf buf pos none).map fun r =>
        (r.1, { header := hdr, body := .b1 r.2 })
    else
      some ((pos : Int) + (RECORD_SIZE : Int), { header := hdr, body := .bOther })

theorem getMsg31FromBuf_fst {buf : List Nat} {pos hdrSize : Nat}
    {moments : Option (List (List Nat))}
    {t : Int × Msg31Header × List (List Nat × Msg31Block)}
    (h : getMsg31FromBuf buf pos hdrSize moments = some t) :
    t.1 = (pos : Int) + 16 + ((hdrSize : Int) * 2 - 4) := by
  obtain ⟨mb, -, rfl⟩ := Option.map_eq_some'.mp h
  rfl

theorem getMsg1FromBuf_fst {buf : List Nat} {pos : Nat}
    {moments : Option (List (List Nat))} {t : Int × Msg1Body}
    (h : getMsg1FromBuf buf pos moments = some t) :
    t.1 = (pos : Int) + (RECORD_SIZE : Int) := by
  obtain ⟨b, -, rfl⟩ := Option.map_eq_some'.mp h
  rfl

/-- C3: the cursor advance rule of `_get_record_from_buf`, for every record
it parses: type 31 advances by `sizeof(MSG_HEADER) + (size * 2 - 4)`,
type 29 by `sizeof(MSG_HEADER) + effective_size` (with the
`size == 65535` escape reading `(segments << 16) | seg_num`), and types 1,
5 and every other type advance by `RECORD_SIZE` (2432 bytes). -/
theorem record_advance (buf : List Nat) (pos : Nat)
    (moments : Option (List (List Nat))) (np : Int) (r : PRecord)
    (h : getRecordFromBuf buf pos moments = some (np, r)) :
    np = if r.header.type = 31 then (pos : Int) + 16 + ((r.header.size : Int) * 2 - 4)
         else if r.header.type = 29 then (pos : Int) + 16 + (msg29EffSize r.header : Int)
         else (pos : Int) + (RECORD_SIZE : Int) := by
  simp only [getRecordFromBuf] at h
  split at h
  · exact absurd h (by simp)
  rename_i hdr hh
  by_cases h31 : hdr.type = 31
  · rw [if_pos h31] at h
    cases hm : getMsg31FromBuf buf pos hdr.size moments with
    | none => rw [hm] at h; exact absurd h (by simp)
    | some t =>
      rw [hm] at h
      simp only [Option.map_some', Option.some.injEq, Prod.mk.injEq] at h
      obtain ⟨hnp, hr⟩ := h
      subst hnp
      subst hr
      simp only [h31, if_pos rfl]
      have := getMsg31FromBuf_fst hm
      simpa [h31] using this
  · rw [if_neg h31] at h
    by_cases h5 : hdr.type = 5
    · rw [if_pos h5] at h
      simp only [Option.some.injEq, Prod.mk.injEq] at h
      obtain ⟨hnp, hr⟩ := h
      subst hnp
      subst hr
      simp [h5]
    · rw [if_neg h5] at h
      by_cases h29 : hdr.type = 29
      · rw [if_pos h29] at h
        simp only [Option.some.injEq, Prod.mk.injEq] at h
        obtain ⟨hnp, hr⟩ := h
        subst hnp
        subst hr
        simp [h29]
      · rw [if_neg h29] at h
        by_cases h1 : hdr.type = 1
        · rw [if_pos h1] at h
          cases hm : getMsg1FromBuf buf pos none with
          | none => rw [hm] at h; exact absurd h (by simp)
          | some t =>
            rw [hm] at h
            simp only [Option.map_some', Option.some.injEq, Prod.mk.injEq] at h
            obtain ⟨hnp, hr⟩ := h
            subst hnp
            subst hr
            have := getMsg1FromBuf_fst hm
            simp [h1, this]
        · rw [if_neg h1] at h
          simp only [Option.some.injEq, Prod.mk.injEq] at h
          obtain ⟨hnp, hr⟩ := h
          subst hnp
          subst hr
          simp [h31, h29]

/-- A 16-byte buffer holding one bare message header of unknown type 99. -/
def advWitnessBuf : List Nat := [0, 0, 0, 99] ++ List.replicate 12 0

/-- The record `_get_record_from_buf` builds from `advWitnessBuf`. -/
def advWitnessRec : PRecord :=
  { header := { size := 0, channels := 0, type := 99, seq_id := 0, date := 0, ms := 0,
                segments := 0, seg_num := 0 },
    body := .bOther }

/-- Witness for C3 at a concrete buffer: an unknown-type record advances the
cursor to `pos + RECORD_SIZE`. -/
theorem record_advance_witness :
    (2432 : Int) =
      if advWitnessRec.header.type = 31 then
        (0 : Int) + 16 + ((advWitnessRec.header.size : Int) * 2 - 4)
      else if advWitnessRec.header.type = 29 then
        (0 : Int) + 16 + (msg29EffSize advWitnessRec.header : Int)
      else (0 : Int) + (RECORD_SIZE : Int) :=
  record_advance advWitnessBuf 0 none 2432 advWitnessRec (by decide)

/-- A one-record buffer for C1: a type-1 message whose MSG_1 body has all
three payload pointers nonzero (`sur_pointer = 100`, `vel_pointer = 101`,
`width_pointer = 102`), one surveillance and one Doppler bin, and three
payload bytes 200, 201, 202. -/
def msg1CexBuf : List Nat :=
  [0, 0, 0, 1] ++ List.replicate 12 0 ++
    List.replicate 26 0 ++ [0, 1, 0, 1] ++ List.replicate 6 0 ++
    [0, 100, 0, 101, 0, 102] ++ List.replicate 58 0 ++ [200, 201, 202]

/-- Which of the three MSG_1 moment blocks a parsed record carries. -/
def recMomentFlags (p : Int × PRecord) : Bool × Bool × Bool :=
  match p.2.body with
  | .b1 b => (b.refB.isSome, b.velB.isSome, b.swB.isSome)
  | _ => (false, false, false)

/-- C1: decoding a type-1 record through `_get_record_from_buf` with the
moment filter `['SW']` attaches *all three* blocks REF, VEL and SW, because
the dispatcher does not forward `moments` to `_get_msg1_from_buf`; and even
calling `_get_msg1_from_buf` directly with `['SW']` attaches *none* of
them, because its SW branch tests `'REF' in moments` instead of `'SW'`.
The claim (each block attached iff its pointer is nonzero and its own tag
is in the filter, SW governed by `'SW'`) fails both ways. -/
theorem msg1_moment_filter_bug :
    ((getRecordFromBuf msg1CexBuf 0 (some [swTag])).map recMomentFlags
        = some (true, true, true))
    ∧ ((getMsg1FromBuf msg1CexBuf 0 (some [swTag])).map
        (fun p => (p.2.refB.isSome, p.2.velB.isSome, p.2.swB.isSome))
        = some (false, false, false)) := by
  decide

/-- A generic moment data block for C8: tag `REF`, `ngates = 4`,
`word_size = 32` (neither 8 nor 16), followed by four payload bytes. -/
def wordSizeCexBuf : List Nat :=
  [68, 82, 69, 70, 0, 0, 0, 0, 0, 4, 0, 0, 0, 0, 0, 0, 0, 0, 0, 32,
   0, 0, 0, 0, 0, 0, 0, 0] ++ [1, 2, 3, 4]

/-- C8: on a generic moment block whose `word_size` is neither 8 nor 16 the
decoder does *not* warn and attach an 8-bit reading of the payload: the
`warnings.warn('Unsupported bit size: ...', dic["word_size"])` call passes
the integer word size as the warning *category*, which raises `TypeError`,
aborting the whole decode; even absent that, the branch would attach
`data = []`, violating `len(data) == ngates`. -/
theorem word_size_type_error :
    getMsg31DataBlock wordSizeCexBuf 0 none = .error .typeErr := by
  rfl

/-! ## Scan grouping repair (`decode_file`, metadata mode)

In metadata mode `decode_file` deep-copies `self.scan_msgs` and, on the
copy, replaces each scan's index list by
`([msgs[-1]] + [j for i, j in enumerate(msgs[:-1][::-1])
                 if np.all(np.diff(msgs[-(i+2):]) == 1.)])[::-1]`,
i.e. it keeps an earlier index `j` exactly when the whole tail window from
`j` to the end steps by one.  The repaired copy feeds only
`self.scan_startend_pos`; the attribute `self.scan_msgs` itself is left
unchanged. -/

/-- `np.all(np.diff(l) == 1.)`: consecutive elements ascend by exactly 1
(indices are integers, so the float comparison is exact). -/
def stepsOne : List Nat → Bool
  | x :: y :: t => (y == x + 1) && stepsOne (y :: t)
  | _ => true

/-- The same chain read right-to-left: consecutive elements descend by 1. -/
def descOne : List Nat → Bool
  | x :: y :: t => (x == y + 1) && descOne (y :: t)
  | _ => true

/-- The list comprehension over `enumerate(msgs[:-1][::-1])`: element `j`
at reversed position `i` survives when the tail window `msgs[-(i+2):]`
steps by one. -/
def filterByWindow (msgs : List Nat) : List Nat → Nat → List Nat
  | [], _ => []
  | j :: rest, i =>
    (if stepsOne (msgs.drop (msgs.length - (i + 2))) then [j] else []) ++
      filterByWindow msgs rest (i + 1)

/-- One scan list after the repair loop (the source never reaches this with
an empty list - empty scans are dropped first - so `[]` for `[]` is
unobservable). -/
def repairMsgs (msgs : List Nat) : List Nat :=
  match msgs.getLast? with
  | none => []
  | some last => (last :: filterByWindow msgs msgs.dropLast.reverse 0).reverse

/-- Worded from the claim: walk the list from the end and stop at the first
non-unit step (computed here on the reversed list). -/
def trailRun : List Nat → List Nat
  | [] => []
  | [x] => [x]
  | x :: y :: t => x :: (if x = y + 1 then trailRun (y :: t) else [])

/-- Worded from the claim: the longest trailing run of consecutive
indices. -/
def longestTrailingRun (msgs : List Nat) : List Nat :=
  (trailRun msgs.reverse).reverse

/-- The fragment of `decode_file` around the repair: the pair is
(`self.scan_msgs` after the fragment, the per-scan index lists used to
compute `self.scan_startend_pos`). -/
def scanMsgsAfterMeta (decodeMeta : Bool) (scanMsgs : List (List Nat)) :
    List (List Nat) × List (List Nat) :=
  (scanMsgs, if decodeMeta then scanMsgs.map repairMsgs else scanMsgs)

/-- Length of the maximal descending-by-one prefix. -/
def descLen : List Nat → Nat
  | [] => 0
  | [_] => 1
  | x :: y :: t => if x = y + 1 then descLen (y :: t) + 1 else 1

theorem descLen_cons_pos (x : Nat) (l : List Nat) : 0 < descLen (x :: l) := by
  cases l with
  | nil => simp [descLen]
  | cons y t =>
    simp only [descLen]
    split <;> omega

theorem descLen_le_length : ∀ l : List Nat, descLen l ≤ l.length := by
  intro l
  induction l with
  | nil => simp [descLen]
  | cons x r ih =>
    cases r with
    | nil => simp [descLen]
    | cons y t =>
      simp only [descLen, List.length_cons]
      split
      · simpa using ih
      · simp

theorem trailRun_eq_take : ∀ r : List Nat, trailRun r = r.take (descLen r) := by
  intro r
  induction r with
  | nil => rfl
  | cons x r ih =>
    cases r with
    | nil => rfl
    | cons y t =>
      simp only [trailRun, descLen]
      by_cases hxy : x = y + 1
      · rw [if_pos hxy, if_pos hxy, ih]
        rfl
      · rw [if_neg hxy, if_neg hxy]
        rfl

theorem stepsOne_iff_chain : ∀ l : List Nat,
    stepsOne l = true ↔ l.Chain' (fun a b => b = a + 1) := by
  intro l
  induction l with
  | nil => simp [stepsOne]
  | cons x r ih =>
    cases r with
    | nil => simp [stepsOne]
    | cons y t =>
      simp only [stepsOne, Bool.and_eq_true, beq_iff_eq, List.chain'_cons]
      rw [ih]

theorem descOne_iff_chain : ∀ l : List Nat,
    descOne l = true ↔ l.Chain' (fun a b => a = b + 1) := by
  intro l
  induction l with
  | nil => simp [descOne]
  | cons x r ih =>
    cases r with
    | nil => simp [descOne]
    | cons y t =>
      simp only [descOne, Bool.and_eq_true, beq_iff_eq, List.chain'_cons]
      rw [ih]

theorem stepsOne_reverse (l : List Nat) : stepsOne l.reverse = descOne l := by
  rw [Bool.eq_iff_iff, stepsOne_iff_chain, descOne_iff_chain]
  exact List.chain'_reverse

theorem descOne_take_iff : ∀ (r : List Nat) (k : Nat), k ≤ r.length →
    (descOne (r.take k) = true ↔ k ≤ descLen r) := by
  intro r
  induction r with
  | nil =>
    intro k hk
    have hk0 : k = 0 := by simpa using hk
    subst hk0
    simp [descOne, descLen]
  | cons x r ih =>
    intro k hk
    cases r with
    | nil =>
      match k with
      | 0 => simp [descOne, descLen]
      | 1 => simp [descOne, descLen]
      | (k' + 2) => simp at hk
    | cons y t =>
      match k with
      | 0 => simp [descOne]
      | 1 =>
        simp only [List.take_succ_cons, List.take_zero]
        have := descLen_cons_pos x (y :: t)
        constructor
        · intro
          omega
        · intro
          rfl
      | (k' + 2) =>
        simp only [List.take_succ_cons, descOne, descLen, Bool.and_eq_true, beq_iff_eq]
        by_cases hxy : x = y + 1
        · rw [if_pos hxy]
          have hk' : k' + 1 ≤ (y :: t).length := by
            simp only [List.length_cons] at hk ⊢
            omega
          have := ih (k' + 1) hk'
          simp only [List.take_succ_cons] at this
          constructor
          · rintro ⟨-, hrest⟩
            have := this.mp hrest
            omega
          · intro hle
            exact ⟨hxy, this.mpr (by omega)⟩
        · rw [if_neg hxy]
          constructor
          · rintro ⟨habs, -⟩
            exact absurd habs hxy
          · intro hle
            omega

theorem filterByWindow_eq_take (hd : Nat) (t : List Nat) :
    ∀ (u : List Nat) (i : Nat), u = t.drop i →
      filterByWindow (hd :: t).reverse u i = u.take (descLen (hd :: t) - 1 - i) := by
  intro u
  induction u with
  | nil =>
    intro i hu
    simp [filterByWindow]
  | cons j rest ih =>
    intro i hu
    have hit : i < t.length := by
      have := congrArg List.length hu
      simp [List.length_drop] at this
      omega
    have hrest : rest = t.drop (i + 1) := by
      have h1 : (j :: rest).tail = (t.drop i).tail := by rw [hu]
      simpa [List.tail_drop] using h1
    have hwin : (hd :: t).reverse.drop ((hd :: t).reverse.length - (i + 2)) =
        ((hd :: t).take (i + 2)).reverse := by
      have h1 : (hd :: t).reverse.drop ((hd :: t).reverse.length - (i + 2)) =
          ((hd :: t).reverse).rtake (i + 2) := rfl
      rw [h1, List.rtake_eq_reverse_take_reverse, List.reverse_reverse]
    have hk2 : i + 2 ≤ (hd :: t).length := by
      simp only [List.length_cons]
      omega
    have hiff := descOne_take_iff (hd :: t) (i + 2) hk2
    simp only [filterByWindow]
    rw [hwin, stepsOne_reverse]
    by_cases hle : i + 2 ≤ descLen (hd :: t)
    · rw [if_pos (hiff.mpr hle)]
      rw [ih (i + 1) hrest]
      have harith : descLen (hd :: t) - 1 - i = (descLen (hd :: t) - 1 - (i + 1)) + 1 := by
        omega
      rw [harith]
      rfl
    · rw [if_neg (fun hc => hle (hiff.mp hc))]
      rw [ih (i + 1) hrest]
      have h0 : descLen (hd :: t) - 1 - (i + 1) = 0 := by omega
      have h0' : descLen (hd :: t) - 1 - i = 0 := by omega
      rw [h0, h0']
      rfl

/-- The repair loop computes exactly the longest trailing run of
consecutive indices. -/
theorem repair_eq_trailing (msgs : List Nat) :
    repairMsgs msgs = longestTrailingRun msgs := by
  have key : ∀ r : List Nat, repairMsgs r.reverse = (trailRun r).reverse := by
    intro r
    cases r with
    | nil => rfl
    | cons hd t =>
      have hrev : (hd :: t).reverse = t.reverse ++ [hd] := by simp
      have hlast : (hd :: t).reverse.getLast? = some hd := by
        rw [hrev]
        exact List.getLast?_concat _
      have hdroplast : (hd :: t).reverse.dropLast = t.reverse := by
        rw [hrev]
        exact List.dropLast_concat
      simp only [repairMsgs, hlast]
      rw [hdroplast, List.reverse_reverse]
      congr 1
      rw [trailRun_eq_take]
      rw [filterByWindow_eq_take hd t t 0 (by simp)]
      have hpos := descLen_cons_pos hd t
      obtain ⟨d', hd'⟩ : ∃ d', descLen (hd :: t) = d' + 1 :=
        ⟨descLen (hd :: t) - 1, by omega⟩
      rw [hd']
      simp
  have h := key msgs.reverse
  rw [List.reverse_reverse] at h
  exact h

/-- C4 (amended): in metadata mode the *deep-copied* per-scan index lists
used to compute `scan_startend_pos` are reduced to the longest trailing run
of consecutive indices (the claim's walk-from-the-end rule), but the
`scan_msgs` attribute itself is left unchanged: the repair loop writes only
into the copy. -/
theorem scan_msgs_meta_amended (scanMsgs : List (List Nat)) :
    (scanMsgsAfterMeta true scanMsgs).1 = scanMsgs
    ∧ (scanMsgsAfterMeta true scanMsgs).2 = scanMsgs.map longestTrailingRun := by
  refine ⟨rfl, ?_⟩
  have hfun : repairMsgs = longestTrailingRun := funext repair_eq_trailing
  simp [scanMsgsAfterMeta, hfun]

/-- C4 counterexample: for the concatenated-volume scan list `[0, 1, 5, 6]`
the longest trailing run is `[5, 6]`, but after the metadata fragment the
`scan_msgs` attribute still holds `[0, 1, 5, 6]` - the earlier volume's
indices are dropped only from the copy feeding the byte ranges, not from
`scan_msgs` as the claim states. -/
theorem scan_msgs_meta_cex :
    (scanMsgsAfterMeta true [[0, 1, 5, 6]]).1 = [[0, 1, 5, 6]]
    ∧ longestTrailingRun [0, 1, 5, 6] = [5, 6]
    ∧ (scanMsgsAfterMeta true [[0, 1, 5, 6]]).1 ≠ [[5, 6]] := by
  decide

/-! ## Radial-record selection (`decode_file` after `_read_records`)

`msg_types_counts = {t: count(t) for t in (1, 31)}` and
`self._msg_type = max(msg_types_counts, key=msg_types_counts.get)`: Python's
`max` over the dict iterates keys in insertion order `(1, 31)` and keeps the
first key attaining the maximum, so type 1 wins ties. -/

/-- A record as the selection fragment sees it: its header type plus an
opaque payload standing in for everything else. -/
structure SelRecord where
  htype : Nat
  payload : Nat
deriving Repr, DecidableEq

/-- `self._msg_type`. -/
def msgTypeOf (records : List SelRecord) : Nat :=
  if records.countP (fun r => r.htype == 31) > records.countP (fun r => r.htype == 1)
  then 31 else 1

/-- The selection fragment: the chosen type and `radial_records`, or `none`
for the `ValueError("No MSG31 records found, cannot read file")`. -/
def selectRadial (records : List SelRecord) : Option (Nat × List SelRecord) :=
  let radial := records.filter fun r => r.htype == msgTypeOf records
  if radial.isEmpty then none else some (msgTypeOf records, radial)

/-- C9: the decoder chooses the radial type with the strictly greater count
(type 1 on ties, which the claim leaves open), collects `radial_records` as
exactly the records of that type in order, and raises the fatal
no-radials error precisely when that list is empty. -/
theorem radial_selection (records : List SelRecord) :
    (records.countP (fun r => r.htype == 1) > records.countP (fun r => r.htype == 31) →
      msgTypeOf records = 1)
    ∧ (records.countP (fun r => r.htype == 31) > records.countP (fun r => r.htype == 1) →
      msgTypeOf records = 31)
    ∧ (selectRadial records = none ↔
      records.filter (fun r => r.htype == msgTypeOf records) = [])
    ∧ (∀ m radial, selectRadial records = some (m, radial) →
      m = msgTypeOf records
      ∧ radial = records.filter (fun r => r.htype == m)
      ∧ radial ≠ []) := by
  refine ⟨?_, ?_, ?_, ?_⟩
  · intro h
    rw [msgTypeOf, if_neg (by omega)]
  · intro h
    rw [msgTypeOf, if_pos h]
  · rw [selectRadial]
    by_cases he : (records.filter fun r => r.htype == msgTypeOf records).isEmpty
    · simp only [he, if_pos]
      simp only [List.isEmpty_iff] at he
      simpa using he
    · simp only [he, if_neg, Bool.false_eq_true, not_false_iff]
      simp only [List.isEmpty_iff] at he
      simp [he]
  · intro m radial h
    rw [selectRadial] at h
    by_cases he : (records.filter fun r => r.htype == msgTypeOf records).isEmpty
    · simp [he] at h
    · simp only [he, if_neg, Bool.false_eq_true, not_false_iff,
        Option.some.injEq, Prod.mk.injEq] at h
      obtain ⟨hm, hr⟩ := h
      subst hm
      subst hr
      simp only [List.isEmpty_iff] at he
      exact ⟨rfl, rfl, he⟩

/-! ## Minimal-metadata re-decode bound (`decode_file`)

`decode_file` re-invokes itself in exactly one place: the validity check
`if read_mode == 'min-meta' and (min(msg_types_counts.values()) > 0 or
wrong_indices_step or (bzip2 and (...)))`, whose body runs
`self.decode_file(self._fh, read_mode='all-meta'); return`.  The data the
check reads is gathered here into one structure. -/

inductive ReadMode where
  | modeAll
  | modeAllMeta
  | modeMinMeta
  | modeRanges (ranges : List (Int × Option Int))
deriving Repr, DecidableEq

/-- What one decoding pass feeds the `min-meta` validity check. -/
structure CheckData where
  count1 : Nat
  count31 : Nat
  bzip2 : Bool
  aziNumbers : List Int
  scanMsgs : List (List Nat)
  firstMsgNgates : List (List Int)
deriving Repr, DecidableEq

/-- `wrong_indices_step`: some azimuth-number step is positive yet differs
from the gzip sampling stride 30.  `enumerate` starts at `i = 0`, where
Python's `azi_numbers[i-1]` wraps to the *last* element. -/
def wrongIndicesStep (mode : ReadMode) (d : CheckData) : Bool :=
  decide (mode = .modeMinMeta) && !d.bzip2 &&
    (List.range d.aziNumbers.length).any fun i =>
      let prev := d.aziNumbers.getD ((i + d.aziNumbers.length - 1) % d.aziNumbers.length) 0
      let step := d.aziNumbers.getD i 0 - prev
      decide (0 < step) && decide (step ≠ 30)

/-- The full condition guarding the recovery re-decode. -/
def minMetaChecksFail (mode : ReadMode) (d : CheckData) : Bool :=
  decide (mode = .modeMinMeta) &&
    (decide (0 < min d.count1 d.count31) || wrongIndicesStep mode d ||
      (d.bzip2 &&
        ((d.scanMsgs.any fun j => decide (j.length ≠ 1)) ||
          (d.firstMsgNgates.any fun l => l.any fun v => v == 0))))

/-- The read mode a pass re-invokes `decode_file` with, if any: always
`'all-meta'`, and only from a `'min-meta'` pass whose checks fail. -/
def redecodeTarget (mode : ReadMode) (d : CheckData) : Option ReadMode :=
  if minMetaChecksFail mode d then some .modeAllMeta else none

/-- How many re-decodes a run starting in `mode` performs, given the check
data each successive pass would observe. -/
def redecodeCount : ReadMode → List CheckData → Nat
  | _, [] => 0
  | mode, d :: ds =>
    match redecodeTarget mode d with
    | some m => 1 + redecodeCount m ds
    | none => 0

theorem redecodeTarget_allMeta (d : CheckData) :
    redecodeTarget .modeAllMeta d = none := by
  rw [redecodeTarget, minMetaChecksFail]
  simp

/-- C10: a decode performs at most one recovery re-decode, whatever mode it
starts in and whatever every pass observes: the only re-decode site is
guarded by `read_mode == 'min-meta'` and re-invokes with `'all-meta'`, and
an `'all-meta'` pass never re-decodes. -/
theorem min_meta_redecode_bound (mode : ReadMode) (ds : List CheckData) :
    redecodeCount mode ds ≤ 1 := by
  cases ds with
  | nil => simp [redecodeCount]
  | cons d ds' =>
    simp only [redecodeCount]
    by_cases hm : mode = .modeMinMeta
    · subst hm
      cases ht : redecodeTarget .modeMinMeta d with
      | none => simp
      | some m =>
        have hmeta : m = .modeAllMeta := by
          rw [redecodeTarget] at ht
          by_cases hc : minMetaChecksFail .modeMinMeta d = true
          · rw [if_pos hc] at ht
            exact (Option.some_inj.mp ht).symm
          · rw [if_neg hc] at ht
            exact absurd ht (by simp)
        subst hmeta
        cases ds' with
        | nil => simp [redecodeCount]
        | cons d2 ds2 =>
          simp only [redecodeCount, redecodeTarget_allMeta]
          omega
    · have ht : redecodeTarget mode d = none := by
        rw [redecodeTarget, minMetaChecksFail]
        simp [hm]
      rw [ht]
      simp

/-! ## Structure-codec cache (`_unpack_from_buf`)

The module-level cache keeps, per structure name (and per moment tag for
`GENERIC_DATA_BLOCK`), the last raw slice and its decoded attribute map.
On a byte-equal hit the generic branch returns
`dic_before['GENERIC_DATA_BLOCK'][product].copy()` - a fresh dict - while
every other branch returns `dic_before[structure_name]` itself, the very
object stored in the cache.  The model tracks that distinction with a
boolean: the second component of the result is `true` when the returned
map is the *same object* as the one the cache holds (so mutating it would
change later hits) and `false` when it is a copy.  Decoding itself
(`_unpack_structure`) is deterministic, so it is carried as an opaque
function parameter `u`; the initial cache entries are `''` (a `str`),
which never byte-equals a `bytes` slice, so an absent entry models them. -/

inductive StructName where
  | volumeHeader
  | msgHeaderS
  | msg31S
  | msg1S
  | msg5S
  | msg5Elev
  | genericDataBlock
  | volumeDataBlock
  | elevationDataBlock
  | radialDataBlock
deriving Repr, DecidableEq

/-- `_structure_size`: the fixed byte size of each schema. -/
def structSize : StructName → Nat
  | .volumeHeader => 24
  | .msgHeaderS => 16
  | .msg31S => 72
  | .msg1S => 100
  | .msg5S => 22
  | .msg5Elev => 46
  | .genericDataBlock => 28
  | .volumeDataBlock => 44
  | .elevationDataBlock => 12
  | .radialDataBlock => 20

/-- The cache state: `dic_before`/`s_before` for the nine plain structures,
and the per-moment-tag sub-map for `GENERIC_DATA_BLOCK`. -/
structure Codec (α : Type) where
  plain : List (StructName × List Nat × α)
  generic : List (List Nat × List Nat × α)
deriving Repr, DecidableEq

def assocFind {κ β : Type} [DecidableEq κ] : List (κ × β) → κ → Option β
  | [], _ => none
  | (k, v) :: rest, key => if key = k then some v else assocFind rest key

/-- The cached (slice, map) for a name - for the generic block keyed also
by the moment tag `product`. -/
def cacheLookup {α : Type} (c : Codec α) (name : StructName)
    (product : Option (List Nat)) : Option (List Nat × α) :=
  if name = .genericDataBlock then assocFind c.generic (product.getD [])
  else assocFind c.plain name

/-- Store a new (slice, map); prepending means `assocFind` sees the newest
entry, modelling overwrite. -/
def cacheStore {α : Type} (c : Codec α) (name : StructName)
    (product : Option (List Nat)) (s : List Nat) (dic : α) : Codec α :=
  if name = .genericDataBlock then
    { c with generic := (product.getD [], s, dic) :: c.generic }
  else
    { c with plain := (name, s, dic) :: c.plain }

/-- The miss path of `_unpack_from_buf`: `struct.unpack` demands the exact
size, then the decoded map is stored.  The generic branch stores
`dic.copy()` and returns `dic` (no aliasing, `false`); the plain branch
stores and returns the same dict (`true`). -/
def unpackMiss {α : Type} (u : StructName → List Nat → α) (c : Codec α)
    (s : List Nat) (name : StructName) (product : Option (List Nat)) :
    Option ((α × Bool) × Codec α) :=
  if s.length = structSize name then
    some ((u name s, decide (name ≠ .genericDataBlock)),
      cacheStore c name product s (u name s))
  else none

/-- `_unpack_from_buf(buf, pos, structure_name, product)`.  The result's
boolean marks whether the returned map is the cache's own object. -/
def unpackFromBuf {α : Type} (u : StructName → List Nat → α) (c : Codec α)
    (buf : List Nat) (pos : Nat) (name : StructName)
    (product : Option (List Nat)) : Option ((α × Bool) × Codec α) :=
  match cacheLookup c name product with
  | some (sb, dic) =>
    if pySlice buf pos (pos + structSize name) = sb then
      some ((dic, decide (name ≠ .genericDataBlock)), c)
    else unpackMiss u c (pySlice buf pos (pos + structSize name)) name product
  | none => unpackMiss u c (pySlice buf pos (pos + structSize name)) name product

/-- C5 (amended): on a byte-equal cache hit `_unpack_from_buf` returns a
map equal in contents to the cached one and leaves the cache unchanged,
but only for `GENERIC_DATA_BLOCK` is the returned map a fresh copy
(`aliased = false`); for every other structure the cached dict object
itself is returned (`aliased = true`), so mutating it *would* change what
later cache hits return. -/
theorem unpack_cache_hit {α : Type} (u : StructName → List Nat → α) (c : Codec α)
    (buf : List Nat) (pos : Nat) (name : StructName) (product : Option (List Nat))
    (sb : List Nat) (dic : α)
    (hcached : cacheLookup c name product = some (sb, dic))
    (hhit : pySlice buf pos (pos + structSize name) = sb) :
    unpackFromBuf u c buf pos name product =
      some ((dic, decide (name ≠ .genericDataBlock)), c) := by
  simp only [unpackFromBuf, hcached]
  rw [if_pos hhit]

/-- The byte slice of the counterexample: sixteen 7s (one MSG_HEADER). -/
def hitSlice : List Nat := List.replicate 16 7

/-- A cache whose MSG_HEADER entry was produced by a previous unpack of
`hitSlice` (with the identity decode standing in for `_unpack_structure`). -/
def hitCodec : Codec (List Nat) :=
  { plain := [(.msgHeaderS, hitSlice, hitSlice)], generic := [] }

/-- C5 counterexample: re-unpacking the byte-identical MSG_HEADER slice is
a cache hit, and the operation returns the cached map with `aliased =
true` - the cache's own object, not a copy - contrary to the claim that
every hit returns a fresh copy. -/
theorem unpack_cache_cex :
    cacheLookup hitCodec .msgHeaderS none = some (hitSlice, hitSlice)
    ∧ unpackFromBuf (fun _ s => s) hitCodec hitSlice 0 .msgHeaderS none
        = some ((hitSlice, true), hitCodec) := by
  decide

/-- Witness for the amended C5 theorem at the concrete hit above. -/
theorem unpack_cache_hit_witness :
    unpackFromBuf (fun _ s => s) hitCodec hitSlice 0 .msgHeaderS none
      = some ((hitSlice, decide (StructName.msgHeaderS ≠ .genericDataBlock)), hitCodec) :=
  unpack_cache_hit (fun _ s => s) hitCodec hitSlice 0 .msgHeaderS none hitSlice hitSlice
    (by decide) (by decide)

/-! ## Query surface: `get_data` and `get_times`

Radial records are viewed through the fields these two methods read: the
header type (for `_bits_to_code`), the collect date/ms, and the requested
moment's block if the ray carries it.  `scale`/`offset` are `REAL4`s and
the conversion `(x - offset) / scale` runs in `np.float32`; the model uses
exact rationals (exact for the constant MSG_1 scales 1.0/2.0 and offsets
66.0/129.0, an idealization for arbitrary file-supplied values - the mask
and the shape of the computation are unaffected).  Out-of-range indices
raise `IndexError` in numpy; the model's theorems restrict to well-formed
inputs through hypotheses, and `List.getD` with a default ray (no moment
block) stands in elsewhere. -/

/-- One moment block as `get_data` reads it. -/
structure MomBlockQ where
  ngates : Nat
  data : List Nat
  scale : Rat
  offset : Rat
  wordSize : Nat
deriving Repr, DecidableEq

/-- One radial record as the query surface reads it (`blk` is the
requested moment's block). -/
structure RayQ where
  htype : Nat
  collect_date : Nat
  collect_ms : Nat
  blk : Option MomBlockQ
deriving Repr, DecidableEq, Inhabited

/-- The decoded volume: `radial_records` and `scan_msgs`. -/
structure VolQ where
  radialRecords : List RayQ
  scanMsgs : List (List Nat)
deriving Repr, DecidableEq

/-- `_msg_nums(scans)`: the concatenation of the requested scans' index
lists. -/
def msgNums (v : VolQ) (scans : List Nat) : List Nat :=
  (scans.map fun s => v.scanMsgs.getD s []).flatten

def rayAt (v : VolQ) (n : Nat) : RayQ :=
  v.radialRecords.getD n default

/-- `_bits_to_code`: `some true` for `"H"` (16-bit), `some false` for
`"B"`; MSG_1 moment arrays are always `>u1`, an unsupported type-31 word
size warns (with a tuple message, which does not raise) and falls back to
`"B"`, and a header type other than 1/31 raises `TypeError` (`none`). -/
def bitsIsH (r : RayQ) (b : MomBlockQ) : Option Bool :=
  if r.htype = 1 then some false
  else if r.htype = 31 then some (decide (b.wordSize = 16))
  else none

/-- The element modulus of the numpy dtype: assigning into a `>u1`/`>u2`
array truncates mod 256 / 65536. -/
def capOf (isH : Bool) : Nat := if isH then 65536 else 256

/-- The initial all-ones row of `np.ones((nrays, max_ngates), ">B")`. -/
def onesRow (maxN : Nat) : List Nat := List.replicate maxN 1

/-- One assigned row: `ngates = min(msg[moment]["ngates"], max_ngates,
len(data))` values stored into the row, the rest left at 1. -/
def rowFor (maxN cap : Nat) (b : MomBlockQ) : List Nat :=
  ((b.data.take (min b.ngates (min maxN b.data.length))).map fun x => x % cap) ++
    List.replicate (maxN - min b.ngates (min maxN b.data.length)) 1

/-- The extraction loop of `get_data`: rows are all ones until the first
ray carrying the moment fixes the dtype (`set_datatype`); every assigned
row is truncated by that dtype's modulus. -/
def buildRows (recs : List RayQ) (maxN : Nat) :
    List Nat → Option Nat → Option (List (List Nat))
  | [], _ => some []
  | n :: rest, capSt =>
    match (recs.getD n default).blk with
    | none => (buildRows recs maxN rest capSt).map fun rs => onesRow maxN :: rs
    | some b =>
      match capSt with
      | some cap =>
        (buildRows recs maxN rest (some cap)).map fun rs => rowFor maxN cap b :: rs
      | none =>
        match bitsIsH (recs.getD n default) b with
        | none => none
        | some h =>
          (buildRows recs maxN rest (some (capOf h))).map fun rs =>
            rowFor maxN (capOf h) b :: rs

/-- `get_data(..., raw_data=True)`: the raw integer matrix. -/
def getDataRaw (v : VolQ) (maxN : Nat) (scans : List Nat) :
    Option (List (List Nat)) :=
  buildRows v.radialRecords maxN (msgNums v scans) none

/-- The scan loop that picks `offset`/`scale`: the *first ray*
(`scan_msgs[scan][0]`) of the first requested scan that carries the
moment. -/
def findScanScale (v : VolQ) : List Nat → Option (Rat × Rat)
  | [] => none
  | scan :: rest =>
    match (rayAt v ((v.scanMsgs.getD scan []).getD 0 0)).blk with
    | some b => some (b.offset, b.scale)
    | none => findScanScale v rest

/-- `get_data(..., raw_data=False)`: each entry is (value, masked).  When a
first-ray carries the moment the values are `(x - offset) / scale` with
mask `x ≤ 1`; otherwise the raw values are returned through
`np.ma.masked_less_equal(data, 1)` - same mask, *no* scaling. -/
def getDataF (v : VolQ) (maxN : Nat) (scans : List Nat) :
    Option (List (List (Rat × Bool))) :=
  match getDataRaw v maxN scans with
  | none => none
  | some rows =>
    match findScanScale v scans with
    | some os =>
      some (rows.map fun row => row.map fun (x : Nat) =>
        (((x : Rat) - os.1) / os.2, decide (x ≤ 1)))
    | none =>
      some (rows.map fun row => row.map fun (x : Nat) => ((x : Rat), decide (x ≤ 1)))

/-- What amended C6 asserts of one `get_data` result. -/
def GetDataSpec (v : VolQ) (maxN : Nat) (scans : List Nat)
    (out : List (List (Rat × Bool))) : Prop :=
  ∃ rows, getDataRaw v maxN scans = some rows ∧
    rows.length = (msgNums v scans).length ∧
    (∀ k, k < rows.length →
      (v.radialRecords.getD ((msgNums v scans).getD k 0) default).blk = none →
      rows.getD k [] = List.replicate maxN 1) ∧
    (match findScanScale v scans with
     | some os => out = rows.map fun row => row.map fun (x : Nat) =>
         (((x : Rat) - os.1) / os.2, decide (x ≤ 1))
     | none => out = rows.map fun row => row.map fun (x : Nat) =>
         ((x : Rat), decide (x ≤ 1))) ∧
    ((∀ n ∈ msgNums v scans, (v.radialRecords.getD n default).blk = none) →
      ∀ row ∈ out, ∀ e ∈ row, e = ((1 : Rat), true))

theorem buildRows_spec (recs : List RayQ) (maxN : Nat) :
    ∀ (ns : List Nat) (capSt : Option Nat) (rows : List (List Nat)),
      buildRows recs maxN ns capSt = some rows →
      rows.length = ns.length ∧
      ∀ k, k < rows.length → (recs.getD (ns.getD k 0) default).blk = none →
        rows.getD k [] = onesRow maxN := by
  intro ns
  induction ns with
  | nil =>
    intro capSt rows h
    simp only [buildRows, Option.some.injEq] at h
    subst h
    refine ⟨rfl, ?_⟩
    intro k hk
    simp at hk
  | cons n rest ih =>
    intro capSt rows h
    simp only [buildRows] at h
    cases hblk : (recs.getD n default).blk with
    | none =>
      rw [hblk] at h
      obtain ⟨rs, hrs, rfl⟩ := Option.map_eq_some'.mp h
      obtain ⟨hlen, hmiss⟩ := ih capSt rs hrs
      refine ⟨by simp [hlen], ?_⟩
      intro k hk hnone
      cases k with
      | zero => rfl
      | succ k' =>
        simp only [List.getD_cons_succ] at hnone ⊢
        exact hmiss k' (by simpa using hk) hnone
    | some b =>
      rw [hblk] at h
      cases capSt with
      | some cap =>
        obtain ⟨rs, hrs, rfl⟩ := Option.map_eq_some'.mp h
        obtain ⟨hlen, hmiss⟩ := ih _ rs hrs
        refine ⟨by simp [hlen], ?_⟩
        intro k hk hnone
        cases k with
        | zero =>
          rw [List.getD_cons_zero] at hnone
          rw [hnone] at hblk
          exact absurd hblk (by simp)
        | succ k' =>
          simp only [List.getD_cons_succ] at hnone ⊢
          exact hmiss k' (by simpa using hk) hnone
      | none =>
        have h' : (match bitsIsH (recs.getD n default) b with
            | none => (none : Option (List (List Nat)))
            | some hh => (buildRows recs maxN rest (some (capOf hh))).map
                fun rs => rowFor maxN (capOf hh) b :: rs) = some rows := h
        cases hbits : bitsIsH (recs.getD n default) b with
        | none => rw [hbits] at h'; exact absurd h' (by simp)
        | some hh =>
          rw [hbits] at h'
          obtain ⟨rs, hrs, rfl⟩ := Option.map_eq_some'.mp h'
          obtain ⟨hlen, hmiss⟩ := ih _ rs hrs
          refine ⟨by simp [hlen], ?_⟩
          intro k hk hnone
          cases k with
          | zero =>
            rw [List.getD_cons_zero] at hnone
            rw [hnone] at hblk
            exact absurd hblk (by simp)
          | succ k' =>
            simp only [List.getD_cons_succ] at hnone ⊢
            exact hmiss k' (by simpa using hk) hnone

theorem buildRows_allMissing (recs : List RayQ) (maxN : Nat) :
    ∀ (ns : List Nat) (capSt : Option Nat),
      (∀ n ∈ ns, (recs.getD n default).blk = none) →
      buildRows recs maxN ns capSt = some (ns.map fun _ => onesRow maxN) := by
  intro ns
  induction ns with
  | nil =>
    intro capSt h
    simp [buildRows]
  | cons n rest ih =>
    intro capSt h
    have hn := h n (by simp)
    simp only [buildRows, hn]
    rw [ih capSt fun m hm => h m (by simp [hm])]
    simp

theorem findScanScale_none (v : VolQ) :
    ∀ scans : List Nat,
      (∀ scan ∈ scans, (rayAt v ((v.scanMsgs.getD scan []).getD 0 0)).blk = none) →
      findScanScale v scans = none := by
  intro scans
  induction scans with
  | nil => intro h; rfl
  | cons scan rest ih =>
    intro h
    have h0 := h scan (by simp)
    simp only [findScanScale, h0]
    exact ih fun m hm => h m (by simp [hm])

theorem getD_zero_mem {l : List Nat} (h : l ≠ []) : l.getD 0 0 ∈ l := by
  cases l with
  | nil => exact absurd rfl h
  | cons a t => simp

theorem head_mem_msgNums (v : VolQ) {scans : List Nat} {scan : Nat}
    (hs : scan ∈ scans) (hne : v.scanMsgs.getD scan [] ≠ []) :
    (v.scanMsgs.getD scan []).getD 0 0 ∈ msgNums v scans := by
  apply List.mem_flatten.mpr
  exact ⟨v.scanMsgs.getD scan [], List.mem_map_of_mem _ hs, getD_zero_mem hne⟩

/-- C6 (amended): for every successful `get_data(..., raw_data=False)`
call on well-formed scans, each ray lacking the moment contributes an
all-ones raw row; when the *first ray of some requested scan* carries the
moment, the output is exactly `(raw - offset) / scale` with that ray's
constants and mask `raw ≤ 1`; otherwise - even if a non-first ray carries
the moment - the *raw* values are returned with the same mask, and when
the moment is absent from every requested ray the array is fully masked
with every value 1. -/
theorem get_data_amended (v : VolQ) (maxN : Nat) (scans : List Nat)
    (out : List (List (Rat × Bool)))
    (hout : getDataF v maxN scans = some out)
    (hne : ∀ scan ∈ scans, v.scanMsgs.getD scan [] ≠ []) :
    GetDataSpec v maxN scans out := by
  cases hraw : getDataRaw v maxN scans with
  | none =>
    rw [getDataF, hraw] at hout
    exact absurd hout (by simp)
  | some rows =>
    rw [getDataF, hraw] at hout
    have hspec := buildRows_spec v.radialRecords maxN (msgNums v scans) none rows hraw
    refine ⟨rows, hraw, hspec.1, ?_, ?_, ?_⟩
    · intro k hk hnone
      simpa [onesRow] using hspec.2 k hk hnone
    · cases hfs : findScanScale v scans with
      | some os =>
        rw [hfs] at hout
        exact (Option.some_inj.mp hout).symm
      | none =>
        rw [hfs] at hout
        exact (Option.some_inj.mp hout).symm
    · intro hmiss row hrow e he
      have hthis := buildRows_allMissing v.radialRecords maxN (msgNums v scans) none hmiss
      have hb : buildRows v.radialRecords maxN (msgNums v scans) none = some rows := hraw
      rw [hthis] at hb
      have hrows : ((msgNums v scans).map fun _ => onesRow maxN) = rows :=
        Option.some_inj.mp hb
      have hfs : findScanScale v scans = none := by
        apply findScanScale_none
        intro scan hs
        exact hmiss _ (head_mem_msgNums v hs (hne scan hs))
      rw [hfs] at hout
      have hout2 := (Option.some_inj.mp hout).symm
      subst hout2
      obtain ⟨r0, hr0, rfl⟩ := List.mem_map.mp hrow
      rw [← hrows] at hr0
      obtain ⟨-, -, rfl⟩ := List.mem_map.mp hr0
      obtain ⟨x, hx, rfl⟩ := List.mem_map.mp he
      have hx' : x ∈ List.replicate maxN 1 := hx
      have hx1 : x = 1 := List.eq_of_mem_replicate hx'
      subst hx1
      simp

/-- A moment block with one gate value 5 and the MSG_1 REF constants. -/
def cexMom : MomBlockQ :=
  { ngates := 1, data := [5], scale := 2, offset := 66, wordSize := 8 }

def cexRay0 : RayQ := { htype := 31, collect_date := 1, collect_ms := 0, blk := none }

def cexRay1 : RayQ := { htype := 31, collect_date := 1, collect_ms := 0, blk := some cexMom }

/-- One scan of two rays; only the *second* ray carries the moment. -/
def cexVol : VolQ := { radialRecords := [cexRay0, cexRay1], scanMsgs := [[0, 1]] }

/-- C6 counterexample: the moment is present in a ray of the requested scan
(ray 1, with offset 66 and scale 2), so the claim demands the masked array
equal `(raw - 66) / 2`; but because the scan's *first* ray lacks the
moment, `get_data` falls through to `masked_less_equal` and returns the
raw value 5 - and `5 ≠ (5 - 66) / 2`. -/
theorem get_data_cex :
    getDataF cexVol 1 [0] = some [[((1 : Rat), true)], [((5 : Rat), false)]]
    ∧ cexRay1.blk = some cexMom ∧ cexMom.offset = 66 ∧ cexMom.scale = 2
    ∧ ((5 : Rat) ≠ ((5 : Rat) - 66) / 2) := by
  refine ⟨by decide, rfl, rfl, rfl, by norm_num⟩

/-- Witness for the amended C6 theorem at the concrete volume above. -/
theorem get_data_amended_witness :
    GetDataSpec cexVol 1 [0] [[((1 : Rat), true)], [((5 : Rat), false)]] :=
  get_data_amended cexVol 1 [0] _ (by decide) (by decide)

/-! ## `get_times`

`days = collect_date` and `secs = collect_ms / 1000.0` over the requested
rays;
`time_start = datetime(1970, 1, 1) + timedelta(days=int(days[0]) - 1,
seconds=int(secs[0]))` and
`time = secs - int(secs[0]) + (days - days[0]) * 86400`.  Datetimes are
modelled as rational seconds since the 1970-01-01 epoch; `int()` on the
nonnegative float `secs[0]` is its floor (for `collect_ms < 2^32` the
float64 quotient rounds far too little to cross an integer, so the exact
rational floor agrees). -/

/-- `(collect_date, collect_ms)` of every requested ray, in order. -/
def radialTimes (v : VolQ) (scans : List Nat) : List (Nat × Nat) :=
  (msgNums v scans).map fun n => ((rayAt v n).collect_date, (rayAt v n).collect_ms)

/-- `get_times(scans)`: `none` models the `IndexError` on an empty ray
list. -/
def getTimes (v : VolQ) (scans : List Nat) : Option (Rat × List Rat) :=
  match radialTimes v scans with
  | [] => none
  | (d0, ms0) :: _ =>
    some (((((d0 : Int) - 1) * 86400 + Int.floor ((ms0 : Rat) / 1000) : Int) : Rat),
      (radialTimes v scans).map fun p =>
        (p.2 : Rat) / 1000 - (Int.floor ((ms0 : Rat) / 1000) : Int) +
          ((p.1 : Int) - (d0 : Int)) * 86400)

/-- C7 (amended): `get_times` returns
`start = epoch + (days[0] - 1) days + floor(collect_ms[0]/1000) seconds` -
the *truncated* seconds, dropping the fractional part the claim includes -
and per-ray offsets `secs - floor(secs[0]) + (days - days[0]) * 86400`
exactly as the claim states them. -/
theorem get_times_amended (v : VolQ) (scans : List Nat) (d0 ms0 : Nat)
    (rest : List (Nat × Nat)) (h : radialTimes v scans = (d0, ms0) :: rest) :
    getTimes v scans =
      some (((((d0 : Int) - 1) * 86400 + Int.floor ((ms0 : Rat) / 1000) : Int) : Rat),
        ((d0, ms0) :: rest).map fun p =>
          (p.2 : Rat) / 1000 - (Int.floor ((ms0 : Rat) / 1000) : Int) +
            ((p.1 : Int) - (d0 : Int)) * 86400) := by
  rw [getTimes, h]

/-- A volume with one ray: `collect_date = 1`, `collect_ms = 1500`. -/
def timesVol : VolQ :=
  { radialRecords := [{ htype := 31, collect_date := 1, collect_ms := 1500, blk := none }],
    scanMsgs := [[0]] }

/-- C7 counterexample: with `collect_ms[0] = 1500` the decoder's start time
is epoch `+ 0 days + 1 second` (the half second is truncated by
`int(secs[0])`), while the claim's start, which keeps the fractional part,
is `1.5` seconds - and `1 ≠ 3/2`.  The per-ray offset `0.5` retains the
fraction. -/
theorem get_times_cex :
    getTimes timesVol [0] = some (1, [1 / 2])
    ∧ ((1 : Rat) ≠ ((1 : Rat) - 1) * 86400 + 1500 / 1000) := by
  constructor
  · rw [getTimes]
    norm_num [radialTimes, msgNums, timesVol, rayAt]
  · norm_num

/-- Witness for the amended C7 theorem at the concrete volume above. -/
theorem get_times_amended_witness :
    getTimes timesVol [0] =
      some ((((((1 : Nat) : Int) - 1) * 86400 + Int.floor (((1500 : Nat) : Rat) / 1000) : Int) : Rat),
        ([((1 : Nat), (1500 : Nat))]).map fun p =>
          (p.2 : Rat) / 1000 - (Int.floor (((1500 : Nat) : Rat) / 1000) : Int) +
            ((p.1 : Int) - ((1 : Nat) : Int)) * 86400) :=
  get_times_amended timesVol [0] 1 1500 [] (by rfl)
